import Mathlib

/-!
Verification development for the money-mgmt repository.

The source under scrutiny is the SQLite schema declared in `src/db.js`
(tables `accounts`, `transactions`, `held_funds`, `transfer_log`, with
`PRAGMA foreign_keys = ON`), the account-linking script
`scripts/link-accounts.js`, and the ledger operations that the design
document specifies on top of that schema (Hold Manager, Transfer
Orchestrator, Ledger Store).  SQL `TEXT` columns are modelled as `String`
(`Option String` when nullable), `INTEGER` ids as `Nat`, `REAL` as `Rat`,
and the `datetime('now')` defaults as a `Nat` clock value threaded into
every write.
-/

/-- The closed status set of `held_funds.status`, from its CHECK constraint:
`CHECK (status IN ('held', 'transferred', 'released'))`. -/
def heldStatuses : List String := ["held", "transferred", "released"]

/-- The closed status set of `transfer_log.status`, from its CHECK constraint:
`CHECK (status IN ('pending', 'posted', 'failed', 'cancelled'))`. -/
def transferStatuses : List String := ["pending", "posted", "failed", "cancelled"]

/-- The terminal statuses of a transfer attempt (every status except
`pending`). -/
def terminalTransferStatuses : List String := ["posted", "failed", "cancelled"]

/-- A row of the `accounts` table. -/
structure AccountRow where
  id : Nat
  plaid_account_id : String
  plaid_item_id : String
  name : String
  official_name : Option String
  type : String
  subtype : Option String
  mask : Option String
  created_at : Nat
deriving DecidableEq, Repr

/-- A row of the `transactions` table. -/
structure TransactionRow where
  id : Nat
  plaid_transaction_id : String
  account_id : Nat
  amount : Rat
  date : String
  name : String
  merchant_name : Option String
  category : Option String
  pending : Nat
  created_at : Nat
deriving DecidableEq, Repr

/-- A row of the `held_funds` table. -/
structure HeldFundsRow where
  id : Nat
  account_id : Nat
  card_account_id : Nat
  amount : Rat
  status : String
  created_at : Nat
  updated_at : Nat
deriving DecidableEq, Repr

/-- A row of the `transfer_log` table. -/
structure TransferLogRow where
  id : Nat
  held_fund_id : Nat
  from_account_id : Nat
  to_account_id : Nat
  amount : Rat
  status : String
  plaid_transfer_id : Option String
  initiated_at : Nat
  completed_at : Option Nat
deriving DecidableEq, Repr

/-- The database state: the four tables created by `src/db.js`, plus the
AUTOINCREMENT counters for their integer primary keys. -/
structure DB where
  accounts : List AccountRow
  transactions : List TransactionRow
  held_funds : List HeldFundsRow
  transfer_log : List TransferLogRow
  nextAccountId : Nat
  nextTransactionId : Nat
  nextHeldFundId : Nat
  nextTransferId : Nat
deriving DecidableEq, Repr

/-- The freshly created database: all four tables empty, AUTOINCREMENT
counters at 1 (SQLite assigns rowids starting from 1). -/
def DB.empty : DB := ⟨[], [], [], [], 1, 1, 1, 1⟩

/-- Whether an `accounts` row with the given id exists (target of the
`REFERENCES accounts(id)` clauses). -/
def accountExists (db : DB) (i : Nat) : Bool :=
  db.accounts.any (fun a => a.id == i)

/-- Whether a `held_funds` row with the given id exists (target of the
`REFERENCES held_funds(id)` clause). -/
def heldFundExists (db : DB) (i : Nat) : Bool :=
  db.held_funds.any (fun h => h.id == i)

/-- SQLite constraint-violation errors that abort a write. -/
inductive SqlError where
  | checkConstraint
  | uniqueConstraint
  | foreignKey
deriving DecidableEq, Repr

/-- Caller-supplied values of an INSERT into `accounts`; `id` and
`created_at` come from AUTOINCREMENT and the DEFAULT clause. -/
structure AccountsInsert where
  plaid_account_id : String
  plaid_item_id : String
  name : String
  official_name : Option String
  type : String
  subtype : Option String
  mask : Option String
deriving DecidableEq, Repr

/-- Caller-supplied values of an INSERT into `transactions`; `pending`
defaults to 0 when omitted. -/
structure TransactionsInsert where
  plaid_transaction_id : String
  account_id : Nat
  amount : Rat
  date : String
  name : String
  merchant_name : Option String
  category : Option String
  pending : Option Nat
deriving DecidableEq, Repr

/-- Caller-supplied values of an INSERT into `held_funds`; `status`
defaults to `'held'` when omitted, the timestamp columns default to the
current time. -/
structure HeldFundsInsert where
  account_id : Nat
  card_account_id : Nat
  amount : Rat
  status : Option String
deriving DecidableEq, Repr

/-- Caller-supplied values of an INSERT into `transfer_log`; `status`
defaults to `'pending'` when omitted, `initiated_at` defaults to the
current time, and the nullable columns `plaid_transfer_id` and
`completed_at` are NULL when not supplied. -/
structure TransferLogInsert where
  held_fund_id : Nat
  from_account_id : Nat
  to_account_id : Nat
  amount : Rat
  status : Option String
  plaid_transfer_id : Option String
  completed_at : Option Nat
deriving DecidableEq, Repr

/-- The SQL write statements against the schema: INSERTs into the four
tables, status UPDATEs on the two ledger tables, and DELETEs of the two
referenced tables. -/
inductive DbWrite where
  | insertAccount (v : AccountsInsert)
  | insertTransaction (v : TransactionsInsert)
  | insertHeldFund (v : HeldFundsInsert)
  | insertTransferLog (v : TransferLogInsert)
  | updateHeldStatus (id : Nat) (status : String)
  | updateTransferStatus (id : Nat) (status : String)
  | deleteAccount (id : Nat)
  | deleteHeldFund (id : Nat)
deriving DecidableEq, Repr

/-- Whether any row of the database references the `accounts` row `i`
(`foreign_keys = ON` forbids deleting it while referenced). -/
def accountReferenced (db : DB) (i : Nat) : Bool :=
  db.transactions.any (fun t => t.account_id == i) ||
  db.held_funds.any (fun h => h.account_id == i || h.card_account_id == i) ||
  db.transfer_log.any (fun t => t.from_account_id == i || t.to_account_id == i)

/-- Whether any `transfer_log` row references the `held_funds` row `i`. -/
def heldFundReferenced (db : DB) (i : Nat) : Bool :=
  db.transfer_log.any (fun t => t.held_fund_id == i)

/-- Execute one SQL write against the schema's declared constraints:
UNIQUE columns, CHECK status sets, DEFAULT clauses, and — because
`src/db.js` issues `PRAGMA foreign_keys = ON` — the REFERENCES clauses.
A violated constraint aborts the write with an error and leaves the
database unchanged. -/
def applyWrite (now : Nat) (db : DB) : DbWrite → Except SqlError DB
  | .insertAccount v =>
      if db.accounts.any (fun a => a.plaid_account_id == v.plaid_account_id) then
        .error .uniqueConstraint
      else
        .ok { db with
          accounts := db.accounts ++
            [⟨db.nextAccountId, v.plaid_account_id, v.plaid_item_id, v.name,
              v.official_name, v.type, v.subtype, v.mask, now⟩],
          nextAccountId := db.nextAccountId + 1 }
  | .insertTransaction v =>
      if db.transactions.any (fun t => t.plaid_transaction_id == v.plaid_transaction_id) then
        .error .uniqueConstraint
      else if !(accountExists db v.account_id) then
        .error .foreignKey
      else
        .ok { db with
          transactions := db.transactions ++
            [⟨db.nextTransactionId, v.plaid_transaction_id, v.account_id, v.amount,
              v.date, v.name, v.merchant_name, v.category, v.pending.getD 0, now⟩],
          nextTransactionId := db.nextTransactionId + 1 }
  | .insertHeldFund v =>
      let st := v.status.getD "held"
      if !(heldStatuses.contains st) then
        .error .checkConstraint
      else if !(accountExists db v.account_id && accountExists db v.card_account_id) then
        .error .foreignKey
      else
        .ok { db with
          held_funds := db.held_funds ++
            [⟨db.nextHeldFundId, v.account_id, v.card_account_id, v.amount, st, now, now⟩],
          nextHeldFundId := db.nextHeldFundId + 1 }
  | .insertTransferLog v =>
      let st := v.status.getD "pending"
      if !(transferStatuses.contains st) then
        .error .checkConstraint
      else if !(heldFundExists db v.held_fund_id &&
                accountExists db v.from_account_id &&
                accountExists db v.to_account_id) then
        .error .foreignKey
      else
        .ok { db with
          transfer_log := db.transfer_log ++
            [⟨db.nextTransferId, v.held_fund_id, v.from_account_id, v.to_account_id,
              v.amount, st, v.plaid_transfer_id, now, v.completed_at⟩],
          nextTransferId := db.nextTransferId + 1 }
  | .updateHeldStatus i s =>
      if db.held_funds.any (fun r => r.id == i) && !(heldStatuses.contains s) then
        .error .checkConstraint
      else
        .ok { db with
          held_funds := db.held_funds.map
            (fun r => if r.id == i then { r with status := s } else r) }
  | .updateTransferStatus i s =>
      if db.transfer_log.any (fun r => r.id == i) && !(transferStatuses.contains s) then
        .error .checkConstraint
      else
        .ok { db with
          transfer_log := db.transfer_log.map
            (fun r => if r.id == i then { r with status := s } else r) }
  | .deleteAccount i =>
      if accountReferenced db i then
        .error .foreignKey
      else
        .ok { db with accounts := db.accounts.filter (fun a => !(a.id == i)) }
  | .deleteHeldFund i =>
      if heldFundReferenced db i then
        .error .foreignKey
      else
        .ok { db with held_funds := db.held_funds.filter (fun h => !(h.id == i)) }

/-- Whether a write was accepted by the store. -/
def writeAccepted (r : Except SqlError DB) : Bool :=
  match r with
  | .ok _ => true
  | .error _ => false

/-- Run one timestamped write; a rejected write leaves the database
unchanged. -/
def stepWrite (db : DB) (w : Nat × DbWrite) : DB :=
  match applyWrite w.1 db w.2 with
  | .ok db' => db'
  | .error _ => db

/-- Run a sequence of timestamped writes from the freshly created
database. -/
def runWrites (ws : List (Nat × DbWrite)) : DB :=
  ws.foldl stepWrite DB.empty

/-- The columns of the `accounts` table, as declared by the
`CREATE TABLE accounts` statement in `src/db.js`. -/
def accountsTableColumns : List String :=
  ["id", "plaid_account_id", "plaid_item_id", "name", "official_name",
   "type", "subtype", "mask", "created_at"]

/-- The columns named by the `INSERT OR IGNORE INTO accounts` statement
that `handleExchange` in `scripts/link-accounts.js` prepares. -/
def linkInsertColumns : List String :=
  ["plaid_account_id", "plaid_item_id", "access_token", "name",
   "official_name", "type", "subtype", "mask"]

/-- Prepare an INSERT statement: SQLite rejects, at prepare time, a
statement that names a column the target table does not have
(`table ... has no column named ...`).  The error carries the first
unknown column. -/
def prepareInsert (tableCols insCols : List String) : Except String Unit :=
  match insCols.filter (fun c => !(tableCols.contains c)) with
  | [] => .ok ()
  | c :: _ => .error ("no column named " ++ c)

/-- One account object returned by the Plaid `accountsGet` call, with the
fields `handleExchange` reads from it. -/
structure LinkedAccount where
  account_id : String
  name : String
  official_name : Option String
  type : String
  subtype : Option String
  mask : Option String
deriving DecidableEq, Repr

/-- The `INSERT OR IGNORE` semantics: a constraint violation (here, the
UNIQUE constraint on `accounts.plaid_account_id`) is silently ignored and
the table is left unchanged, instead of aborting with an error. -/
def insertOrIgnoreAccount (now : Nat) (db : DB) (v : AccountsInsert) : DB :=
  match applyWrite now db (.insertAccount v) with
  | .ok db' => db'
  | .error _ => db

/-- The database side of `handleExchange` in `scripts/link-accounts.js`:
prepare the `INSERT OR IGNORE INTO accounts (...)` statement, then run it
once per fetched account inside a transaction.  The statement names an
`access_token` column, so preparation is checked against the table's
column list; in the (unreachable, for this statement) successful branch
the `access_token` value has no `accounts` column to be stored in and
only the schema's columns are written. -/
def runLinkExchange (now : Nat) (db : DB) (item_id access_token : String)
    (accs : List LinkedAccount) : Except String DB :=
  match prepareInsert accountsTableColumns linkInsertColumns with
  | .error e => .error e
  | .ok _ =>
      let _ := access_token
      .ok (accs.foldl (fun d acc =>
        insertOrIgnoreAccount now d
          ⟨acc.account_id, item_id, acc.name, acc.official_name,
           acc.type, acc.subtype, acc.mask⟩) db)

/-- Modelled from the spec: the error taxonomy of §7 —
`InvalidRequestError`, `InvalidStateError`, `ConflictError`,
`NotFoundError` (the gateway error kinds are out of ledger scope). -/
inductive LedgerError where
  | invalidRequest
  | invalidState
  | conflict
  | notFound
deriving DecidableEq, Repr

/-- Modelled from the spec: the idempotency key of `createHold` (§4.2), a
derived uniqueness constraint — "a stable hash of (sourceAccount,
cardAccount, amount, caller-supplied token)"; the hash is modelled as the
tuple itself. -/
structure IdemKey where
  source : Nat
  card : Nat
  amount : Rat
  token : String
deriving DecidableEq, Repr

/-- Modelled from the spec: the state held by the Ledger Store (§4.1) —
the `held_funds` and `transfer_log` relations of the schema, the derived
idempotency-key index of §4.2, and the id counters.  The Hold Manager,
Transfer Orchestrator and Reconciler of §4.2-§4.4 exist nowhere in the
source; the schema in `src/db.js` only declares the two tables. -/
structure Ledger where
  held_funds : List HeldFundsRow
  transfer_log : List TransferLogRow
  idem_index : List (IdemKey × Nat)
  nextHeldFundId : Nat
  nextTransferId : Nat
deriving DecidableEq, Repr

/-- The empty ledger state. -/
def Ledger.empty : Ledger := ⟨[], [], [], 1, 1⟩

/-- The number of active (non-terminal) transfer attempts recorded for
the held fund `hid`. -/
def activeAttemptCount (L : Ledger) (hid : Nat) : Nat :=
  L.transfer_log.countP
    (fun a => a.held_fund_id == hid && !(terminalTransferStatuses.contains a.status))

/-- The number of `pending` transfer attempts recorded for the held fund
`hid`. -/
def pendingAttemptCount (L : Ledger) (hid : Nat) : Nat :=
  L.transfer_log.countP (fun a => a.held_fund_id == hid && a.status == "pending")

/-- The number of `transfer_log` rows carrying the external transfer id
`ext`. -/
def extIdCount (L : Ledger) (ext : String) : Nat :=
  L.transfer_log.countP (fun a => a.plaid_transfer_id == some ext)

/-- Modelled from the spec: `createHold` (§4.1-§4.2, absent from the
source).  Validates `amount > 0` and distinct accounts, rejecting with
`InvalidRequestError` otherwise; a repeated call with the same
idempotency key returns the existing HeldFund instead of creating a
duplicate; otherwise persists a new `held_funds` row in status `held`. -/
def createHold (now : Nat) (source card : Nat) (amount : Rat) (token : String)
    (L : Ledger) : Except LedgerError (Nat × Ledger) :=
  if amount ≤ 0 ∨ source = card then .error .invalidRequest
  else
    let key : IdemKey := ⟨source, card, amount, token⟩
    match L.idem_index.find? (fun e => decide (e.1 = key)) with
    | some e => .ok (e.2, L)
    | none =>
        .ok (L.nextHeldFundId,
          { L with
            held_funds := L.held_funds ++
              [⟨L.nextHeldFundId, source, card, amount, "held", now, now⟩],
            idem_index := L.idem_index ++ [(key, L.nextHeldFundId)],
            nextHeldFundId := L.nextHeldFundId + 1 })

/-- Helper for `releaseHold`: walk `held_funds` to the row with the given
id and move it `held → released`; a hold that is not in status `held` is
already terminal and cannot be released (`InvalidStateError`), an unknown
id is `NotFoundError`. -/
def releaseRows : List HeldFundsRow → Nat → Nat → Except LedgerError (List HeldFundsRow)
  | [], _, _ => .error .notFound
  | h :: l, hid, now =>
      if h.id == hid then
        if h.status == "held" then
          .ok ({ h with status := "released", updated_at := now } :: l)
        else .error .invalidState
      else
        match releaseRows l hid now with
        | .ok l' => .ok (h :: l')
        | .error e => .error e

/-- Modelled from the spec: `releaseHold` (§4.2, absent from the source).
Fails with `InvalidStateError` if the held fund already has an active
attempt or is already terminal; otherwise moves it `held → released`. -/
def releaseHold (now : Nat) (hid : Nat) (L : Ledger) : Except LedgerError Ledger :=
  if activeAttemptCount L hid ≠ 0 then .error .invalidState
  else
    match releaseRows L.held_funds hid now with
    | .ok hs => .ok { L with held_funds := hs }
    | .error e => .error e

/-- The `held_funds` row with the given id, if any. -/
def findHold (L : Ledger) (hid : Nat) : Option HeldFundsRow :=
  L.held_funds.find? (fun h => h.id == hid)

/-- Modelled from the spec: the store step of `initiateTransfer` (§4.3,
absent from the source).  Fails with `InvalidStateError` if the held fund
is not `held` or already has an active attempt; otherwise creates a
`pending` `transfer_log` row whose amount equals the held fund's amount,
with no external transfer id and no completion time yet. -/
def createAttempt (now : Nat) (hid : Nat) (L : Ledger) :
    Except LedgerError (Nat × Ledger) :=
  match findHold L hid with
  | none => .error .notFound
  | some h =>
      if h.status ≠ "held" ∨ activeAttemptCount L hid ≠ 0 then .error .invalidState
      else
        .ok (L.nextTransferId,
          { L with
            transfer_log := L.transfer_log ++
              [⟨L.nextTransferId, hid, h.account_id, h.card_account_id, h.amount,
                "pending", none, now, none⟩],
            nextTransferId := L.nextTransferId + 1 })

/-- Helper for `recordTransferId`: walk `transfer_log` to the row with
the given id and set its external transfer id, which the gateway supplies
at most once and only while the attempt is still `pending`. -/
def recordExtRows : List TransferLogRow → Nat → String →
    Except LedgerError (List TransferLogRow)
  | [], _, _ => .error .notFound
  | a :: l, tid, ext =>
      if a.id == tid then
        if a.status == "pending" && a.plaid_transfer_id == none then
          .ok ({ a with plaid_transfer_id := some ext } :: l)
        else .error .invalidState
      else
        match recordExtRows l tid ext with
        | .ok l' => .ok (a :: l')
        | .error e => .error e

/-- Modelled from the spec: recording the gateway's external transfer id
on an attempt once the gateway accepts the request (§3, §4.1, §4.3;
absent from the source).  "Uniqueness on external transfer id prevents
double recording of the same gateway transfer": an id already recorded on
any row is rejected with `ConflictError`. -/
def recordTransferId (tid : Nat) (ext : String) (L : Ledger) :
    Except LedgerError Ledger :=
  if extIdCount L ext ≠ 0 then .error .conflict
  else
    match recordExtRows L.transfer_log tid ext with
    | .ok ts => .ok { L with transfer_log := ts }
    | .error e => .error e

/-- Modelled from the spec: the terminal outcomes a gateway result is
reconciled to (§4.3). -/
inductive TransferOutcome where
  | posted
  | failed
  | cancelled
deriving DecidableEq, Repr

/-- The `transfer_log.status` value written for a terminal outcome. -/
def TransferOutcome.statusOf : TransferOutcome → String
  | .posted => "posted"
  | .failed => "failed"
  | .cancelled => "cancelled"

/-- Helper for `finalizeAttempt`: walk `transfer_log` to the row with the
given id; a `pending` row moves to the terminal status `st` with
`completed_at` set to the current time; re-applying the same terminal
outcome is a no-op (§4.4, §8: idempotent under an Orchestrator/Reconciler
race, by compare-and-set on the attempt status); a different terminal
status is a `ConflictError`.  Returns the attempt's held-fund id with the
updated rows. -/
def finalizeRows : List TransferLogRow → Nat → String → Nat →
    Except LedgerError (Nat × List TransferLogRow)
  | [], _, _, _ => .error .notFound
  | a :: l, tid, st, now =>
      if a.id == tid then
        if a.status == "pending" then
          .ok (a.held_fund_id, { a with status := st, completed_at := some now } :: l)
        else if a.status == st then
          .ok (a.held_fund_id, a :: l)
        else .error .conflict
      else
        match finalizeRows l tid st now with
        | .ok (h, l') => .ok (h, a :: l')
        | .error e => .error e

/-- Set the held fund `hid` to `transferred` (the parent update of a
`posted` outcome). -/
def markTransferred (l : List HeldFundsRow) (hid : Nat) (now : Nat) :
    List HeldFundsRow :=
  l.map (fun h => if h.id == hid then
    { h with status := "transferred", updated_at := now } else h)

/-- Modelled from the spec: `finalizeAttempt(attemptId, outcome)` (§4.1,
§4.3-§4.4; absent from the source).  Atomically updates the attempt to
its terminal status with `completed_at` set and, on a `posted` outcome
only, moves the parent held fund `held → transferred` in the same step;
`failed`/`cancelled` never change the held fund. -/
def finalizeAttempt (now : Nat) (tid : Nat) (outcome : TransferOutcome)
    (L : Ledger) : Except LedgerError Ledger :=
  match finalizeRows L.transfer_log tid outcome.statusOf now with
  | .error e => .error e
  | .ok (hid, ts) =>
      match outcome with
      | .posted =>
          .ok { L with
            transfer_log := ts,
            held_funds := markTransferred L.held_funds hid now }
      | _ => .ok { L with transfer_log := ts }

/-- The ledger operations of §4.1-§4.4, as invoked by callers. -/
inductive LedgerOp where
  | createHold (source card : Nat) (amount : Rat) (token : String)
  | releaseHold (hid : Nat)
  | createAttempt (hid : Nat)
  | recordTransferId (tid : Nat) (ext : String)
  | finalizeAttempt (tid : Nat) (outcome : TransferOutcome)
deriving DecidableEq, Repr

/-- Dispatch one ledger operation. -/
def applyLedgerOp (now : Nat) (L : Ledger) : LedgerOp → Except LedgerError Ledger
  | .createHold s c a t => (createHold now s c a t L).map (fun r => r.2)
  | .releaseHold h => releaseHold now h L
  | .createAttempt h => (createAttempt now h L).map (fun r => r.2)
  | .recordTransferId t e => recordTransferId t e L
  | .finalizeAttempt t o => finalizeAttempt now t o L

/-- Run one timestamped ledger operation; a failed operation leaves the
ledger unchanged. -/
def stepLedger (L : Ledger) (p : Nat × LedgerOp) : Ledger :=
  match applyLedgerOp p.1 L p.2 with
  | .ok L' => L'
  | .error _ => L

/-- Run a sequence of timestamped ledger operations from the empty
ledger. -/
def runLedger (ops : List (Nat × LedgerOp)) : Ledger :=
  ops.foldl stepLedger Ledger.empty

/-- Example write sequence: link two accounts, hold 50 from account 1
toward card account 2, and open a transfer attempt for the hold. -/
def exampleWrites : List (Nat × DbWrite) :=
  [(0, .insertAccount ⟨"pa1", "it1", "Checking", none, "depository", none, none⟩),
   (0, .insertAccount ⟨"pa2", "it1", "Card", none, "credit", none, none⟩),
   (1, .insertHeldFund ⟨1, 2, 50, none⟩),
   (2, .insertTransferLog ⟨1, 1, 2, 50, none, none, none⟩)]

/-- The database state reached by `exampleWrites`. -/
def exampleDB : DB := runWrites exampleWrites

/-- The state after one more defaulted `transfer_log` insert at time 5. -/
def exampleDB2 : DB := stepWrite exampleDB (5, .insertTransferLog ⟨1, 1, 2, 50, none, none, none⟩)

/-- Example ledger history: a hold of 50, one attempt, the gateway id,
and a posted outcome. -/
def exampleOps : List (Nat × LedgerOp) :=
  [(0, .createHold 1 2 50 "tok"),
   (1, .createAttempt 1),
   (2, .recordTransferId 1 "T1"),
   (3, .finalizeAttempt 1 .posted)]

/-- The ledger state reached by `exampleOps`. -/
def exampleLedger : Ledger := runLedger exampleOps

/-- The ledger state after one `createHold` on the empty ledger. -/
def exampleHoldLedger : Ledger := stepLedger Ledger.empty (0, .createHold 1 2 50 "tok")

/-- The fields of a `held_funds` row that no ledger operation ever
rewrites: source account, card account, amount. -/
def holdCore (h : HeldFundsRow) : Nat × Nat × Rat :=
  (h.account_id, h.card_account_id, h.amount)

/-- The inductive invariant of the modelled ledger: every hold has a
positive amount and distinct accounts; every held fund has at most one
active attempt; `completed_at` is set exactly on terminal attempts; and
every external transfer id occurs at most once. -/
def LedgerInv (L : Ledger) : Prop :=
  (∀ h ∈ L.held_funds, 0 < h.amount ∧ h.account_id ≠ h.card_account_id) ∧
  (∀ hid : Nat, activeAttemptCount L hid ≤ 1) ∧
  (∀ a ∈ L.transfer_log,
    ((a.completed_at ≠ none) ↔ a.status ∈ terminalTransferStatuses)) ∧
  (∀ ext : String, extIdCount L ext ≤ 1)

/-! Generic helper lemmas. -/

/-- An invariant preserved by every step holds after any `foldl` run. -/
theorem foldl_preserves {σ τ : Type} (P : σ → Prop) (f : σ → τ → σ)
    (hstep : ∀ s t, P s → P (f s t)) :
    ∀ (l : List τ) (s : σ), P s → P (l.foldl f s) := by
  intro l
  induction l with
  | nil => intro s hs; exact hs
  | cons t l ih => intro s hs; exact ih (f s t) (hstep s t hs)

/-- A property of a projection transports along lists with equal
projections. -/
theorem forall_of_map_eq {α β : Type} (g : α → β) (P : β → Prop) {l l' : List α}
    (hmap : l'.map g = l.map g) (hP : ∀ x ∈ l, P (g x)) :
    ∀ x ∈ l', P (g x) := by
  intro x hx
  have hgx : g x ∈ l.map g := hmap ▸ List.mem_map_of_mem g hx
  rcases List.mem_map.mp hgx with ⟨y, hy, hgy⟩
  exact hgy ▸ hP y hy

/-! Invariant machinery for the raw schema writes. -/

/-- Both status columns only ever hold values of their CHECK sets. -/
def statusesClosed (db : DB) : Prop :=
  (∀ r ∈ db.held_funds, r.status ∈ heldStatuses) ∧
  (∀ r ∈ db.transfer_log, r.status ∈ transferStatuses)

theorem statusesClosed_empty : statusesClosed DB.empty := by
  constructor <;> intro r hr <;> cases hr

theorem statusesClosed_step (db : DB) (w : Nat × DbWrite)
    (h : statusesClosed db) : statusesClosed (stepWrite db w) := by
  obtain ⟨hheld, htr⟩ := h
  obtain ⟨now, w⟩ := w
  rcases hres : applyWrite now db w with e | db'
  · simp only [stepWrite, hres]
    exact ⟨hheld, htr⟩
  · simp only [stepWrite, hres]
    cases w with
    | insertAccount v =>
      simp only [applyWrite] at hres
      split at hres
      · cases hres
      · cases hres
        exact ⟨hheld, htr⟩
    | insertTransaction v =>
      simp only [applyWrite] at hres
      split at hres
      · cases hres
      · split at hres
        · cases hres
        · cases hres
          exact ⟨hheld, htr⟩
    | insertHeldFund v =>
      simp only [applyWrite] at hres
      split at hres
      · cases hres
      · rename_i hcheck
        split at hres
        · cases hres
        · cases hres
          refine ⟨?_, htr⟩
          intro r hr
          rcases List.mem_append.mp hr with hr | hr
          · exact hheld r hr
          · rcases List.mem_singleton.mp hr with rfl
            have hc : heldStatuses.contains (v.status.getD "held") = true := by
              revert hcheck
              cases heldStatuses.contains (v.status.getD "held") <;> simp
            exact List.elem_iff.mp hc
    | insertTransferLog v =>
      simp only [applyWrite] at hres
      split at hres
      · cases hres
      · rename_i hcheck
        split at hres
        · cases hres
        · cases hres
          refine ⟨hheld, ?_⟩
          intro r hr
          rcases List.mem_append.mp hr with hr | hr
          · exact htr r hr
          · rcases List.mem_singleton.mp hr with rfl
            have hc : transferStatuses.contains (v.status.getD "pending") = true := by
              revert hcheck
              cases transferStatuses.contains (v.status.getD "pending") <;> simp
            exact List.elem_iff.mp hc
    | updateHeldStatus i s =>
      simp only [applyWrite] at hres
      split at hres
      · cases hres
      · rename_i hcond
        cases hres
        refine ⟨?_, htr⟩
        intro r hr
        rcases List.mem_map.mp hr with ⟨r0, hr0, hfr⟩
        by_cases hid : (r0.id == i) = true
        · have hany : (db.held_funds.any fun r => r.id == i) = true :=
            List.any_eq_true.mpr ⟨r0, hr0, hid⟩
          have hc : heldStatuses.contains s = true := by
            cases hcs : heldStatuses.contains s
            · exact absurd (by rw [hany, hcs]; rfl) hcond
            · rfl
          subst hfr
          simp only [hid, if_true]
          exact List.elem_iff.mp hc
        · subst hfr
          simp only [hid]
          simpa using hheld r0 hr0
    | updateTransferStatus i s =>
      simp only [applyWrite] at hres
      split at hres
      · cases hres
      · rename_i hcond
        cases hres
        refine ⟨hheld, ?_⟩
        intro r hr
        rcases List.mem_map.mp hr with ⟨r0, hr0, hfr⟩
        by_cases hid : (r0.id == i) = true
        · have hany : (db.transfer_log.any fun r => r.id == i) = true :=
            List.any_eq_true.mpr ⟨r0, hr0, hid⟩
          have hc : transferStatuses.contains s = true := by
            cases hcs : transferStatuses.contains s
            · exact absurd (by rw [hany, hcs]; rfl) hcond
            · rfl
          subst hfr
          simp only [hid, if_true]
          exact List.elem_iff.mp hc
        · subst hfr
          simp only [hid]
          simpa using htr r0 hr0
    | deleteAccount i =>
      simp only [applyWrite] at hres
      split at hres
      · cases hres
      · cases hres
        exact ⟨hheld, htr⟩
    | deleteHeldFund i =>
      simp only [applyWrite] at hres
      split at hres
      · cases hres
      · cases hres
        exact ⟨fun r hr => hheld r (List.mem_of_mem_filter hr), htr⟩

theorem statusesClosed_run (ws : List (Nat × DbWrite)) :
    statusesClosed (runWrites ws) :=
  foldl_preserves statusesClosed stepWrite statusesClosed_step ws DB.empty
    statusesClosed_empty

/-- A positive `any` survives appending rows on the right. -/
theorem any_append_left {α : Type} {l : List α} (l' : List α) {p : α → Bool}
    (h : l.any p = true) : (l ++ l').any p = true := by
  rw [List.any_append, h, Bool.true_or]

/-- A positive `any` survives a map that does not change the tested
predicate. -/
theorem any_map_of_pred_eq {α : Type} {l : List α} {f : α → α} {p : α → Bool}
    (hf : ∀ a, p (f a) = p a) (h : l.any p = true) : (l.map f).any p = true := by
  rcases List.any_eq_true.mp h with ⟨x, hx, hpx⟩
  exact List.any_eq_true.mpr ⟨f x, List.mem_map_of_mem f hx, by rw [hf x]; exact hpx⟩

/-- A positive `any` survives a filter that keeps its witness. -/
theorem any_filter_of_kept {α : Type} {l : List α} {p q : α → Bool} {a : α}
    (ha : a ∈ l) (hpa : p a = true) (hqa : q a = true) : (l.filter q).any p = true :=
  List.any_eq_true.mpr ⟨a, List.mem_filter.mpr ⟨ha, hqa⟩, hpa⟩

/-- Every `held_funds` and `transfer_log` row references existing parent
rows (the REFERENCES clauses, enforced because `foreign_keys` is ON). -/
def refsIntact (db : DB) : Prop :=
  (∀ r ∈ db.held_funds,
    accountExists db r.account_id = true ∧ accountExists db r.card_account_id = true) ∧
  (∀ r ∈ db.transfer_log,
    heldFundExists db r.held_fund_id = true ∧
    accountExists db r.from_account_id = true ∧ accountExists db r.to_account_id = true)

theorem refsIntact_empty : refsIntact DB.empty := by
  constructor <;> intro r hr <;> cases hr

theorem refsIntact_step (db : DB) (w : Nat × DbWrite)
    (h : refsIntact db) : refsIntact (stepWrite db w) := by
  obtain ⟨hheld, htr⟩ := h
  obtain ⟨now, w⟩ := w
  rcases hres : applyWrite now db w with e | db'
  · simp only [stepWrite, hres]
    exact ⟨hheld, htr⟩
  · simp only [stepWrite, hres]
    cases w with
    | insertAccount v =>
      simp only [applyWrite] at hres
      split at hres
      · cases hres
      · cases hres
        refine ⟨fun r hr => ?_, fun r hr => ?_⟩
        · obtain ⟨h1, h2⟩ := hheld r hr
          exact ⟨any_append_left _ h1, any_append_left _ h2⟩
        · obtain ⟨h1, h2, h3⟩ := htr r hr
          exact ⟨h1, any_append_left _ h2, any_append_left _ h3⟩
    | insertTransaction v =>
      simp only [applyWrite] at hres
      split at hres
      · cases hres
      · split at hres
        · cases hres
        · cases hres
          exact ⟨hheld, htr⟩
    | insertHeldFund v =>
      simp only [applyWrite] at hres
      split at hres
      · cases hres
      · split at hres
        · cases hres
        · rename_i hfk
          cases hres
          have hfk' : (accountExists db v.account_id && accountExists db v.card_account_id) = true := by
            revert hfk
            cases accountExists db v.account_id && accountExists db v.card_account_id <;> simp
          obtain ⟨hfk1, hfk2⟩ := Bool.and_eq_true_iff.mp hfk'
          refine ⟨fun r hr => ?_, fun r hr => ?_⟩
          · rcases List.mem_append.mp hr with hr | hr
            · exact hheld r hr
            · rcases List.mem_singleton.mp hr with rfl
              exact ⟨hfk1, hfk2⟩
          · obtain ⟨h1, h2, h3⟩ := htr r hr
            exact ⟨any_append_left _ h1, h2, h3⟩
    | insertTransferLog v =>
      simp only [applyWrite] at hres
      split at hres
      · cases hres
      · split at hres
        · cases hres
        · rename_i hfk
          cases hres
          have hfk' : (heldFundExists db v.held_fund_id &&
              accountExists db v.from_account_id &&
              accountExists db v.to_account_id) = true := by
            revert hfk
            cases heldFundExists db v.held_fund_id &&
              accountExists db v.from_account_id &&
              accountExists db v.to_account_id <;> simp
          obtain ⟨hfk12, hfk3⟩ := Bool.and_eq_true_iff.mp hfk'
          obtain ⟨hfk1, hfk2⟩ := Bool.and_eq_true_iff.mp hfk12
          refine ⟨hheld, fun r hr => ?_⟩
          rcases List.mem_append.mp hr with hr | hr
          · exact htr r hr
          · rcases List.mem_singleton.mp hr with rfl
            exact ⟨hfk1, hfk2, hfk3⟩
    | updateHeldStatus i s =>
      simp only [applyWrite] at hres
      split at hres
      · cases hres
      · cases hres
        refine ⟨fun r hr => ?_, fun r hr => ?_⟩
        · rcases List.mem_map.mp hr with ⟨r0, hr0, hfr⟩
          obtain ⟨h1, h2⟩ := hheld r0 hr0
          subst hfr
          by_cases hid : (r0.id == i) = true <;> simp only [hid, if_true, if_false] <;>
            exact ⟨h1, h2⟩
        · obtain ⟨h1, h2, h3⟩ := htr r hr
          refine ⟨?_, h2, h3⟩
          exact any_map_of_pred_eq
            (fun a => by by_cases hc : (a.id == i) = true <;> simp [hc]) h1
    | updateTransferStatus i s =>
      simp only [applyWrite] at hres
      split at hres
      · cases hres
      · cases hres
        refine ⟨hheld, fun r hr => ?_⟩
        rcases List.mem_map.mp hr with ⟨r0, hr0, hfr⟩
        obtain ⟨h1, h2, h3⟩ := htr r0 hr0
        subst hfr
        by_cases hid : (r0.id == i) = true <;> simp only [hid, if_true, if_false] <;>
          exact ⟨h1, h2, h3⟩
    | deleteAccount i =>
      simp only [applyWrite] at hres
      split at hres
      · cases hres
      · rename_i hguard
        cases hres
        have hg : accountReferenced db i = false := by
          revert hguard
          cases accountReferenced db i <;> simp
        simp only [accountReferenced, Bool.or_eq_false_iff] at hg
        obtain ⟨⟨htx, hhf⟩, htl⟩ := hg
        rw [List.any_eq_false] at hhf htl
        refine ⟨fun r hr => ?_, fun r hr => ?_⟩
        · obtain ⟨h1, h2⟩ := hheld r hr
          have hrne := hhf r hr
          simp only [Bool.or_eq_false_iff] at hrne
          rcases List.any_eq_true.mp h1 with ⟨a, ha, hpa⟩
          rcases List.any_eq_true.mp h2 with ⟨b, hb, hpb⟩
          refine ⟨any_filter_of_kept ha hpa ?_, any_filter_of_kept hb hpb ?_⟩
          · have : a.id = r.account_id := beq_iff_eq.mp hpa
            have : (a.id == i) = false := by
              rw [this]
              simpa using fun hcc => by simp [hcc] at hrne
            simp [this]
          · have : b.id = r.card_account_id := beq_iff_eq.mp hpb
            have : (b.id == i) = false := by
              rw [this]
              simpa using fun hcc => by simp [hcc] at hrne
            simp [this]
        · obtain ⟨h1, h2, h3⟩ := htr r hr
          have hrne := htl r hr
          simp only [Bool.or_eq_false_iff] at hrne
          rcases List.any_eq_true.mp h2 with ⟨a, ha, hpa⟩
          rcases List.any_eq_true.mp h3 with ⟨b, hb, hpb⟩
          refine ⟨h1, any_filter_of_kept ha hpa ?_, any_filter_of_kept hb hpb ?_⟩
          · have : a.id = r.from_account_id := beq_iff_eq.mp hpa
            have : (a.id == i) = false := by
              rw [this]
              simpa using fun hcc => by simp [hcc] at hrne
            simp [this]
          · have : b.id = r.to_account_id := beq_iff_eq.mp hpb
            have : (b.id == i) = false := by
              rw [this]
              simpa using fun hcc => by simp [hcc] at hrne
            simp [this]
    | deleteHeldFund i =>
      simp only [applyWrite] at hres
      split at hres
      · cases hres
      · rename_i hguard
        cases hres
        have hg : heldFundReferenced db i = false := by
          revert hguard
          cases heldFundReferenced db i <;> simp
        simp only [heldFundReferenced] at hg
        rw [List.any_eq_false] at hg
        refine ⟨fun r hr => hheld r (List.mem_of_mem_filter hr), fun r hr => ?_⟩
        obtain ⟨h1, h2, h3⟩ := htr r hr
        refine ⟨?_, h2, h3⟩
        rcases List.any_eq_true.mp h1 with ⟨a, ha, hpa⟩
        have hne := hg r hr
        refine any_filter_of_kept ha hpa ?_
        have hai : a.id = r.held_fund_id := beq_iff_eq.mp hpa
        have : (a.id == i) = false := by
          rw [hai]
          simpa using fun hcc => by simp [hcc] at hne
        simp [this]

theorem refsIntact_run (ws : List (Nat × DbWrite)) :
    refsIntact (runWrites ws) :=
  foldl_preserves refsIntact stepWrite refsIntact_step ws DB.empty refsIntact_empty

/-- C1: the status columns are closed sets enforced at the storage
boundary.  A `held_funds` write whose status is outside
{held, transferred, released}, and a `transfer_log` write whose status is
outside {pending, posted, failed, cancelled}, is rejected by the store
(CHECK constraint), and consequently in every database state reachable by
writes from the fresh database no persisted row carries a status outside
its enumerated set. -/
theorem statuses_closed_at_storage_boundary :
    (∀ ws : List (Nat × DbWrite),
      (∀ r ∈ (runWrites ws).held_funds, r.status ∈ heldStatuses) ∧
      (∀ r ∈ (runWrites ws).transfer_log, r.status ∈ transferStatuses)) ∧
    (∀ (now : Nat) (db : DB) (v : HeldFundsInsert) (s : String),
      v.status = some s → s ∉ heldStatuses →
      writeAccepted (applyWrite now db (.insertHeldFund v)) = false) ∧
    (∀ (now : Nat) (db : DB) (v : TransferLogInsert) (s : String),
      v.status = some s → s ∉ transferStatuses →
      writeAccepted (applyWrite now db (.insertTransferLog v)) = false) ∧
    (∀ (now i : Nat) (db : DB) (s : String),
      (db.held_funds.any fun r => r.id == i) = true → s ∉ heldStatuses →
      writeAccepted (applyWrite now db (.updateHeldStatus i s)) = false) ∧
    (∀ (now i : Nat) (db : DB) (s : String),
      (db.transfer_log.any fun r => r.id == i) = true → s ∉ transferStatuses →
      writeAccepted (applyWrite now db (.updateTransferStatus i s)) = false) := by
  refine ⟨fun ws => statusesClosed_run ws, ?_, ?_, ?_, ?_⟩
  · intro now db v s hv hs
    simp [applyWrite, hv, hs, writeAccepted]
  · intro now db v s hv hs
    simp [applyWrite, hv, hs, writeAccepted]
  · intro now i db s hany hs
    simp [applyWrite, hany, hs, writeAccepted]
  · intro now i db s hany hs
    simp [applyWrite, hany, hs, writeAccepted]

/-- Witness for the C1 theorem: a reachable state with a held row and a
transfer row whose statuses lie in the enumerated sets, and four rejected
writes with out-of-set statuses. -/
theorem statuses_closed_at_storage_boundary_witness :
    (⟨1, 1, 2, 50, "held", 1, 1⟩ : HeldFundsRow).status ∈ heldStatuses ∧
    (⟨1, 1, 1, 2, 50, "pending", none, 2, none⟩ : TransferLogRow).status ∈ transferStatuses ∧
    writeAccepted (applyWrite 3 exampleDB (.insertHeldFund ⟨1, 2, 50, some "stuck"⟩)) = false ∧
    writeAccepted (applyWrite 3 exampleDB (.insertTransferLog ⟨1, 1, 2, 50, some "done", none, none⟩)) = false ∧
    writeAccepted (applyWrite 3 exampleDB (.updateHeldStatus 1 "gone")) = false ∧
    writeAccepted (applyWrite 3 exampleDB (.updateTransferStatus 1 "done")) = false :=
  ⟨(statuses_closed_at_storage_boundary.1 exampleWrites).1 _ (by decide),
   (statuses_closed_at_storage_boundary.1 exampleWrites).2 _ (by decide),
   statuses_closed_at_storage_boundary.2.1 3 exampleDB _ "stuck" rfl (by decide),
   statuses_closed_at_storage_boundary.2.2.1 3 exampleDB _ "done" rfl (by decide),
   statuses_closed_at_storage_boundary.2.2.2.1 3 1 exampleDB "gone" (by decide) (by decide),
   statuses_closed_at_storage_boundary.2.2.2.2 3 1 exampleDB "done" (by decide) (by decide)⟩

/-- C10: referential integrity is enforced on every write
(`foreign_keys = ON`): in every reachable database state each
`held_funds` row's `account_id` and `card_account_id` name existing
`accounts` rows and each `transfer_log` row's `held_fund_id`,
`from_account_id` and `to_account_id` name existing `held_funds` /
`accounts` rows, and a write violating a reference — an insert with a
missing parent, or a delete of a still-referenced parent — is
rejected. -/
theorem foreign_keys_enforced :
    (∀ ws : List (Nat × DbWrite),
      (∀ r ∈ (runWrites ws).held_funds,
        accountExists (runWrites ws) r.account_id = true ∧
        accountExists (runWrites ws) r.card_account_id = true) ∧
      (∀ r ∈ (runWrites ws).transfer_log,
        heldFundExists (runWrites ws) r.held_fund_id = true ∧
        accountExists (runWrites ws) r.from_account_id = true ∧
        accountExists (runWrites ws) r.to_account_id = true)) ∧
    (∀ (now : Nat) (db : DB) (v : HeldFundsInsert),
      (accountExists db v.account_id && accountExists db v.card_account_id) = false →
      writeAccepted (applyWrite now db (.insertHeldFund v)) = false) ∧
    (∀ (now : Nat) (db : DB) (v : TransferLogInsert),
      (heldFundExists db v.held_fund_id && accountExists db v.from_account_id &&
        accountExists db v.to_account_id) = false →
      writeAccepted (applyWrite now db (.insertTransferLog v)) = false) ∧
    (∀ (now i : Nat) (db : DB), accountReferenced db i = true →
      writeAccepted (applyWrite now db (.deleteAccount i)) = false) ∧
    (∀ (now i : Nat) (db : DB), heldFundReferenced db i = true →
      writeAccepted (applyWrite now db (.deleteHeldFund i)) = false) := by
  refine ⟨fun ws => refsIntact_run ws, ?_, ?_, ?_, ?_⟩
  · intro now db v h
    simp only [applyWrite]
    split
    · rfl
    · simp [h, writeAccepted]
  · intro now db v h
    simp only [applyWrite]
    split
    · rfl
    · simp [h, writeAccepted]
  · intro now i db h
    simp [applyWrite, h, writeAccepted]
  · intro now i db h
    simp [applyWrite, h, writeAccepted]

/-- Witness for the C10 theorem: the reachable example state satisfies
referential integrity at its rows, and four reference-violating writes
are rejected there. -/
theorem foreign_keys_enforced_witness :
    (accountExists exampleDB 1 = true ∧ accountExists exampleDB 2 = true) ∧
    (heldFundExists exampleDB 1 = true ∧ accountExists exampleDB 1 = true ∧
      accountExists exampleDB 2 = true) ∧
    writeAccepted (applyWrite 3 exampleDB (.insertHeldFund ⟨3, 4, 10, none⟩)) = false ∧
    writeAccepted (applyWrite 3 exampleDB (.insertTransferLog ⟨2, 1, 2, 50, none, none, none⟩)) = false ∧
    writeAccepted (applyWrite 3 exampleDB (.deleteAccount 1)) = false ∧
    writeAccepted (applyWrite 3 exampleDB (.deleteHeldFund 1)) = false :=
  ⟨(foreign_keys_enforced.1 exampleWrites).1 ⟨1, 1, 2, 50, "held", 1, 1⟩ (by decide),
   (foreign_keys_enforced.1 exampleWrites).2 ⟨1, 1, 1, 2, 50, "pending", none, 2, none⟩ (by decide),
   foreign_keys_enforced.2.1 3 exampleDB _ (by decide),
   foreign_keys_enforced.2.2.1 3 exampleDB _ (by decide),
   foreign_keys_enforced.2.2.2.1 3 1 exampleDB (by decide),
   foreign_keys_enforced.2.2.2.2 3 1 exampleDB (by decide)⟩

/-- C7: a `transfer_log` INSERT that supplies no status and none of the
nullable columns produces a row in status `pending` (DEFAULT 'pending'),
with `initiated_at` set to the current time (DEFAULT datetime('now')),
and `completed_at` and `plaid_transfer_id` NULL. -/
theorem transfer_insert_defaults (now : Nat) (db db' : DB) (v : TransferLogInsert)
    (hst : v.status = none) (hpid : v.plaid_transfer_id = none)
    (hcomp : v.completed_at = none)
    (hok : applyWrite now db (.insertTransferLog v) = .ok db') :
    db'.transfer_log = db.transfer_log ++
      [⟨db.nextTransferId, v.held_fund_id, v.from_account_id, v.to_account_id,
        v.amount, "pending", none, now, none⟩] := by
  simp only [applyWrite, hst, hpid, hcomp, Option.getD] at hok
  split at hok
  · cases hok
  · split at hok
    · cases hok
    · cases hok
      rfl

/-- Witness for the C7 theorem: inserting a defaulted `transfer_log` row
into the example state at time 5 appends exactly the defaulted row. -/
theorem transfer_insert_defaults_witness :
    exampleDB2.transfer_log = exampleDB.transfer_log ++
      [⟨2, 1, 1, 2, 50, "pending", none, 5, none⟩] :=
  transfer_insert_defaults 5 exampleDB exampleDB2 ⟨1, 1, 2, 50, none, none, none⟩
    rfl rfl rfl rfl

/-- C4: the INSERT prepared by `handleExchange` names an `access_token`
column, but the `accounts` table declared in `src/db.js` has no such
column, so the statement fails to prepare and the exchange errors for
every input — the access token obtained from the token exchange is never
stored in any account row. -/
theorem access_token_never_stored :
    "access_token" ∈ linkInsertColumns ∧
    "access_token" ∉ accountsTableColumns ∧
    ∀ (now : Nat) (db : DB) (item_id access_token : String)
      (accs : List LinkedAccount),
      runLinkExchange now db item_id access_token accs =
        .error "no column named access_token" := by
  refine ⟨by decide, by decide, ?_⟩
  intro now db item_id access_token accs
  rfl

/-- C9: re-running the linking insert for an account whose
`plaid_account_id` is already present does not behave as a silent
`INSERT OR IGNORE` no-op: the statement's unknown `access_token` column
makes the whole exchange error before any conflict handling runs.  Here
the example database already holds the account with
`plaid_account_id = "pa1"`, and the repeated exchange for it errors. -/
theorem relink_existing_account_errors :
    (exampleDB.accounts.any fun a => a.plaid_account_id == "pa1") = true ∧
    runLinkExchange 9 exampleDB "it1" "tok"
        [⟨"pa1", "Checking", none, "depository", none, none⟩] =
      .error "no column named access_token" :=
  ⟨by decide, rfl⟩

/-- When nothing in the first list matches, `find?` over an append looks
in the second list. -/
theorem find?_append_of_none {α : Type} {l : List α} (l₂ : List α) {p : α → Bool}
    (h : l.find? p = none) : (l ++ l₂).find? p = l₂.find? p := by
  induction l with
  | nil => rfl
  | cons a l ih =>
    cases hpa : p a with
    | true =>
      rw [List.find?_cons_of_pos _ hpa] at h
      cases h
    | false =>
      have hpa' : ¬p a = true := by rw [hpa]; exact Bool.false_ne_true
      rw [List.find?_cons_of_neg _ hpa'] at h
      rw [List.cons_append, List.find?_cons_of_neg _ hpa']
      exact ih h

/-- The helper `releaseRows` only rewrites a status: the core fields of every row
are untouched. -/
theorem releaseRows_map_core {l : List HeldFundsRow} {hid now : Nat}
    {l' : List HeldFundsRow} (h : releaseRows l hid now = .ok l') :
    l'.map holdCore = l.map holdCore := by
  induction l generalizing l' with
  | nil => cases h
  | cons a l ih =>
    simp only [releaseRows] at h
    split at h
    · split at h
      · cases h
        simp [holdCore]
      · cases h
    · split at h
      · rename_i l'' heq
        cases h
        simp [List.map_cons, ih heq]
      · cases h

/-- The helper `markTransferred` only rewrites a status: the core fields of every
row are untouched. -/
theorem markTransferred_map_core (l : List HeldFundsRow) (hid now : Nat) :
    (markTransferred l hid now).map holdCore = l.map holdCore := by
  induction l with
  | nil => rfl
  | cons a l ih =>
    simp only [markTransferred, List.map_cons] at ih ⊢
    refine congrArg₂ List.cons ?_ ih
    by_cases hc : (a.id == hid) = true
    · rw [if_pos hc]
      rfl
    · rw [if_neg hc]

/-- Every row after `recordExtRows` is either an original row or the
single updated row, which was `pending` with no external id. -/
theorem recordExtRows_mem {l l' : List TransferLogRow} {tid : Nat} {ext : String}
    (h : recordExtRows l tid ext = .ok l') :
    ∀ x ∈ l', x ∈ l ∨ ∃ a, a ∈ l ∧ a.status = "pending" ∧
      a.plaid_transfer_id = none ∧ x = { a with plaid_transfer_id := some ext } := by
  induction l generalizing l' with
  | nil => cases h
  | cons a l ih =>
    simp only [recordExtRows] at h
    split at h
    · split at h
      · rename_i hguard
        cases h
        intro x hx
        rcases List.mem_cons.mp hx with rfl | hx
        · obtain ⟨h1, h2⟩ := Bool.and_eq_true_iff.mp hguard
          exact Or.inr ⟨a, List.mem_cons_self a l, beq_iff_eq.mp h1, beq_iff_eq.mp h2, rfl⟩
        · exact Or.inl (List.mem_cons_of_mem a hx)
      · cases h
    · split at h
      · rename_i l'' heq
        cases h
        intro x hx
        rcases List.mem_cons.mp hx with rfl | hx
        · exact Or.inl (List.mem_cons_self x l)
        · rcases ih heq x hx with hx | ⟨b, hb, h1, h2, h3⟩
          · exact Or.inl (List.mem_cons_of_mem a hx)
          · exact Or.inr ⟨b, List.mem_cons_of_mem a hb, h1, h2, h3⟩
      · cases h

/-- The helper `recordExtRows` leaves every count alone whose predicate ignores the
external id. -/
theorem recordExtRows_countP_keep {l l' : List TransferLogRow} {tid : Nat}
    {ext : String} (h : recordExtRows l tid ext = .ok l')
    (p : TransferLogRow → Bool)
    (hp : ∀ a : TransferLogRow, p { a with plaid_transfer_id := some ext } = p a) :
    l'.countP p = l.countP p := by
  induction l generalizing l' with
  | nil => cases h
  | cons a l ih =>
    simp only [recordExtRows] at h
    split at h
    · split at h
      · cases h
        simp [List.countP_cons, hp a]
      · cases h
    · split at h
      · rename_i l'' heq
        cases h
        simp [List.countP_cons, ih heq]
      · cases h

/-- The helper `recordExtRows` does not change the count of rows carrying an
external id other than the recorded one. -/
theorem recordExtRows_countP_ne {l l' : List TransferLogRow} {tid : Nat}
    {ext : String} (h : recordExtRows l tid ext = .ok l') {e : String}
    (hne : e ≠ ext) :
    l'.countP (fun a => a.plaid_transfer_id == some e) =
      l.countP (fun a => a.plaid_transfer_id == some e) := by
  induction l generalizing l' with
  | nil => cases h
  | cons a l ih =>
    simp only [recordExtRows] at h
    split at h
    · split at h
      · rename_i hguard
        obtain ⟨h1, h2⟩ := Bool.and_eq_true_iff.mp hguard
        cases h
        have hupd : ((some ext == some e) : Bool) = false := by
          cases hq : ((some ext == some e) : Bool)
          · rfl
          · exact absurd (Option.some.inj (beq_iff_eq.mp hq)).symm hne
        have horig : ((a.plaid_transfer_id == some e) : Bool) = false := by
          rw [beq_iff_eq.mp h2]
          rfl
        simp [List.countP_cons, hupd, horig]
      · cases h
    · split at h
      · rename_i l'' heq
        cases h
        simp [List.countP_cons, ih heq]
      · cases h

/-- The helper `recordExtRows` increases any count by at most one. -/
theorem recordExtRows_countP_le_succ {l l' : List TransferLogRow} {tid : Nat}
    {ext : String} (h : recordExtRows l tid ext = .ok l')
    (p : TransferLogRow → Bool) : l'.countP p ≤ l.countP p + 1 := by
  induction l generalizing l' with
  | nil => cases h
  | cons a l ih =>
    simp only [recordExtRows] at h
    split at h
    · split at h
      · cases h
        simp only [List.countP_cons]
        split <;> split <;> omega
      · cases h
    · split at h
      · rename_i l'' heq
        cases h
        have := ih heq
        simp only [List.countP_cons]
        split <;> omega
      · cases h

/-- Every row after `finalizeRows` is either an original row or the
single finalized row, which was `pending`. -/
theorem finalizeRows_mem {l l' : List TransferLogRow} {tid : Nat} {st : String}
    {now hid2 : Nat} (h : finalizeRows l tid st now = .ok (hid2, l')) :
    ∀ x ∈ l', x ∈ l ∨ ∃ a, a ∈ l ∧ a.status = "pending" ∧
      x = { a with status := st, completed_at := some now } := by
  induction l generalizing l' with
  | nil => cases h
  | cons a l ih =>
    simp only [finalizeRows] at h
    split at h
    · split at h
      · rename_i hguard
        cases h
        intro x hx
        rcases List.mem_cons.mp hx with rfl | hx
        · exact Or.inr ⟨a, List.mem_cons_self a l, beq_iff_eq.mp hguard, rfl⟩
        · exact Or.inl (List.mem_cons_of_mem a hx)
      · split at h
        · cases h
          intro x hx
          exact Or.inl hx
        · cases h
    · split at h
      · rename_i hid3 l'' heq
        cases h
        intro x hx
        rcases List.mem_cons.mp hx with rfl | hx
        · exact Or.inl (List.mem_cons_self x l)
        · rcases ih heq x hx with hx | ⟨b, hb, h1, h2⟩
          · exact Or.inl (List.mem_cons_of_mem a hx)
          · exact Or.inr ⟨b, List.mem_cons_of_mem a hb, h1, h2⟩
      · cases h

/-- The helper `finalizeRows` leaves every count alone whose predicate ignores the
status and completion time. -/
theorem finalizeRows_countP_keep {l l' : List TransferLogRow} {tid : Nat}
    {st : String} {now hid2 : Nat} (h : finalizeRows l tid st now = .ok (hid2, l'))
    (p : TransferLogRow → Bool)
    (hp : ∀ a : TransferLogRow, p { a with status := st, completed_at := some now } = p a) :
    l'.countP p = l.countP p := by
  induction l generalizing l' with
  | nil => cases h
  | cons a l ih =>
    simp only [finalizeRows] at h
    split at h
    · split at h
      · cases h
        simp [List.countP_cons, hp a]
      · split at h
        · cases h
          rfl
        · cases h
    · split at h
      · rename_i hid3 l'' heq
        cases h
        simp [List.countP_cons, ih heq]
      · cases h

/-- The helper `finalizeRows` never increases a count whose predicate is false on
the finalized row. -/
theorem finalizeRows_countP_dec {l l' : List TransferLogRow} {tid : Nat}
    {st : String} {now hid2 : Nat} (h : finalizeRows l tid st now = .ok (hid2, l'))
    (p : TransferLogRow → Bool)
    (hp : ∀ a : TransferLogRow, p { a with status := st, completed_at := some now } = false) :
    l'.countP p ≤ l.countP p := by
  induction l generalizing l' with
  | nil => cases h
  | cons a l ih =>
    simp only [finalizeRows] at h
    split at h
    · split at h
      · cases h
        rw [List.countP_cons, List.countP_cons, hp a,
          if_neg (by decide : ¬(false = true))]
        split <;> omega
      · split at h
        · cases h
          exact Nat.le_refl _
        · cases h
    · split at h
      · rename_i hid3 l'' heq
        cases h
        have := ih heq
        simp only [List.countP_cons]
        split <;> omega
      · cases h

/-- Finalizing one attempt to a terminal status preserves the
transfer-side invariants. -/
theorem finalize_transfer_invariants {l ts : List TransferLogRow} {tid : Nat}
    {st : String} {now hid2 : Nat}
    (heq : finalizeRows l tid st now = .ok (hid2, ts))
    (hst : terminalTransferStatuses.contains st = true)
    (hact : ∀ hid' : Nat,
      l.countP (fun a => a.held_fund_id == hid' &&
        !(terminalTransferStatuses.contains a.status)) ≤ 1)
    (hcomp : ∀ a ∈ l, ((a.completed_at ≠ none) ↔ a.status ∈ terminalTransferStatuses))
    (hext : ∀ e : String, l.countP (fun a => a.plaid_transfer_id == some e) ≤ 1) :
    (∀ hid' : Nat,
      ts.countP (fun a => a.held_fund_id == hid' &&
        !(terminalTransferStatuses.contains a.status)) ≤ 1) ∧
    (∀ a ∈ ts, ((a.completed_at ≠ none) ↔ a.status ∈ terminalTransferStatuses)) ∧
    (∀ e : String, ts.countP (fun a => a.plaid_transfer_id == some e) ≤ 1) := by
  refine ⟨?_, ?_, ?_⟩
  · intro hid'
    refine le_trans (finalizeRows_countP_dec heq _ ?_) (hact hid')
    intro a
    show (a.held_fund_id == hid' && !(terminalTransferStatuses.contains st)) = false
    rw [hst]
    exact Bool.and_false _
  · intro x hx
    rcases finalizeRows_mem heq x hx with hx | ⟨b, hb, hbs, hxeq⟩
    · exact hcomp x hx
    · subst hxeq
      constructor
      · intro _
        exact List.elem_iff.mp hst
      · intro _
        exact Option.some_ne_none now
  · intro e
    rw [finalizeRows_countP_keep heq
      (fun a => a.plaid_transfer_id == some e) (fun a => rfl)]
    exact hext e

theorem ledgerInv_empty : LedgerInv Ledger.empty := by
  refine ⟨?_, ?_, ?_, ?_⟩
  · intro h hh
    cases hh
  · intro hid
    exact Nat.zero_le 1
  · intro a ha
    cases ha
  · intro e
    exact Nat.zero_le 1

theorem ledgerInv_step (L : Ledger) (p : Nat × LedgerOp)
    (h : LedgerInv L) : LedgerInv (stepLedger L p) := by
  obtain ⟨hamt, hact, hcomp, hext⟩ := h
  obtain ⟨now, op⟩ := p
  rcases hres : applyLedgerOp now L op with e | L'
  · simp only [stepLedger, hres]
    exact ⟨hamt, hact, hcomp, hext⟩
  · simp only [stepLedger, hres]
    cases op with
    | createHold s c a t =>
      simp only [applyLedgerOp] at hres
      rcases hch : createHold now s c a t L with e | pr
      · rw [hch] at hres
        cases hres
      · rw [hch] at hres
        simp only [Except.map] at hres
        cases hres
        simp only [createHold] at hch
        split at hch
        · cases hch
        · rename_i hvalid
          split at hch
          · cases hch
            exact ⟨hamt, hact, hcomp, hext⟩
          · cases hch
            refine ⟨?_, hact, hcomp, hext⟩
            intro x hx
            rcases List.mem_append.mp hx with hx | hx
            · exact hamt x hx
            · rcases List.mem_singleton.mp hx with rfl
              constructor
              · exact lt_of_not_le (fun hle => hvalid (Or.inl hle))
              · exact fun he => hvalid (Or.inr he)
    | releaseHold hid =>
      simp only [applyLedgerOp, releaseHold] at hres
      split at hres
      · cases hres
      · split at hres
        · rename_i hs heq
          cases hres
          refine ⟨?_, hact, hcomp, hext⟩
          exact forall_of_map_eq holdCore
            (fun tr => 0 < tr.2.2 ∧ tr.1 ≠ tr.2.1)
            (releaseRows_map_core heq) (fun y hy => hamt y hy)
        · cases hres
    | createAttempt hid =>
      simp only [applyLedgerOp] at hres
      rcases hca : createAttempt now hid L with e | pr
      · rw [hca] at hres
        cases hres
      · rw [hca] at hres
        simp only [Except.map] at hres
        cases hres
        simp only [createAttempt] at hca
        split at hca
        · cases hca
        · rename_i hrow hfind
          split at hca
          · cases hca
          · rename_i hguard
            push_neg at hguard
            obtain ⟨hstat, hcnt⟩ := hguard
            cases hca
            simp only [activeAttemptCount] at hcnt
            refine ⟨hamt, ?_, ?_, ?_⟩
            · intro hid'
              simp only [activeAttemptCount]
              rw [List.countP_append]
              by_cases hh : hid = hid'
              · subst hh
                rw [hcnt]
                have : List.countP (fun a : TransferLogRow => a.held_fund_id == hid &&
                    !(terminalTransferStatuses.contains a.status))
                    [⟨L.nextTransferId, hid, hrow.account_id, hrow.card_account_id,
                      hrow.amount, "pending", none, now, none⟩] ≤ 1 := by
                  rw [List.countP_cons, List.countP_nil]
                  split <;> omega
                omega
              · have hz : List.countP (fun a : TransferLogRow => a.held_fund_id == hid' &&
                    !(terminalTransferStatuses.contains a.status))
                    [⟨L.nextTransferId, hid, hrow.account_id, hrow.card_account_id,
                      hrow.amount, "pending", none, now, none⟩] = 0 := by
                  rw [List.countP_cons, List.countP_nil]
                  have : ((hid == hid') : Bool) = false := by
                    cases hq : ((hid == hid') : Bool)
                    · rfl
                    · exact absurd (beq_iff_eq.mp hq) hh
                  rw [if_neg]
                  intro hcc
                  rw [show ((⟨L.nextTransferId, hid, hrow.account_id,
                    hrow.card_account_id, hrow.amount, "pending", none, now,
                    none⟩ : TransferLogRow).held_fund_id == hid') = false from this] at hcc
                  cases hcc
                have := hact hid'
                simp only [activeAttemptCount] at this
                omega
            · intro x hx
              rcases List.mem_append.mp hx with hx | hx
              · exact hcomp x hx
              · rcases List.mem_singleton.mp hx with rfl
                constructor
                · intro hc
                  exact absurd rfl hc
                · intro hm
                  exact absurd hm (by decide : ¬("pending" ∈ terminalTransferStatuses))
            · intro e
              simp only [extIdCount]
              rw [List.countP_append]
              have hz : List.countP (fun a : TransferLogRow => a.plaid_transfer_id == some e)
                  [⟨L.nextTransferId, hid, hrow.account_id, hrow.card_account_id,
                    hrow.amount, "pending", none, now, none⟩] = 0 := by
                rw [List.countP_cons, List.countP_nil]
                rfl
              have := hext e
              simp only [extIdCount] at this
              omega
    | recordTransferId tid ext =>
      simp only [applyLedgerOp, recordTransferId] at hres
      split at hres
      · cases hres
      · rename_i hzero
        push_neg at hzero
        split at hres
        · rename_i ts heq
          cases hres
          refine ⟨hamt, ?_, ?_, ?_⟩
          · intro hid'
            simp only [activeAttemptCount]
            rw [recordExtRows_countP_keep heq
              (fun a => a.held_fund_id == hid' &&
                !(terminalTransferStatuses.contains a.status)) (fun a => rfl)]
            exact hact hid'
          · intro x hx
            rcases recordExtRows_mem heq x hx with hx | ⟨b, hb, hbs, hbp, hxeq⟩
            · exact hcomp x hx
            · subst hxeq
              exact hcomp b hb
          · intro e
            simp only [extIdCount]
            by_cases he : e = ext
            · subst he
              simp only [extIdCount] at hzero
              have := recordExtRows_countP_le_succ heq
                (fun a => a.plaid_transfer_id == some e)
              omega
            · rw [recordExtRows_countP_ne heq he]
              exact hext e
        · cases hres
    | finalizeAttempt tid outcome =>
      have hterm : terminalTransferStatuses.contains outcome.statusOf = true := by
        cases outcome <;> rfl
      cases outcome with
      | posted =>
        simp only [applyLedgerOp, finalizeAttempt] at hres
        split at hres
        · cases hres
        · rename_i hid2 ts heq
          cases hres
          obtain ⟨h2, h3, h4⟩ := finalize_transfer_invariants heq hterm hact hcomp hext
          refine ⟨?_, h2, h3, h4⟩
          exact forall_of_map_eq holdCore
            (fun tr => 0 < tr.2.2 ∧ tr.1 ≠ tr.2.1)
            (markTransferred_map_core L.held_funds hid2 now) (fun y hy => hamt y hy)
      | failed =>
        simp only [applyLedgerOp, finalizeAttempt] at hres
        split at hres
        · cases hres
        · rename_i hid2 ts heq
          cases hres
          obtain ⟨h2, h3, h4⟩ := finalize_transfer_invariants heq hterm hact hcomp hext
          exact ⟨hamt, h2, h3, h4⟩
      | cancelled =>
        simp only [applyLedgerOp, finalizeAttempt] at hres
        split at hres
        · cases hres
        · rename_i hid2 ts heq
          cases hres
          obtain ⟨h2, h3, h4⟩ := finalize_transfer_invariants heq hterm hact hcomp hext
          exact ⟨hamt, h2, h3, h4⟩

theorem ledgerInv_run (ops : List (Nat × LedgerOp)) : LedgerInv (runLedger ops) :=
  foldl_preserves LedgerInv stepLedger ledgerInv_step ops Ledger.empty ledgerInv_empty

/-- C2: in every ledger state reachable by the modelled operations, every
held fund has at most one associated transfer attempt in a non-terminal
(active) status, and in particular at most one attempt in status
`pending`. -/
theorem at_most_one_active_attempt (ops : List (Nat × LedgerOp)) (hid : Nat) :
    activeAttemptCount (runLedger ops) hid ≤ 1 ∧
    pendingAttemptCount (runLedger ops) hid ≤ 1 := by
  have hact := (ledgerInv_run ops).2.1 hid
  refine ⟨hact, le_trans ?_ hact⟩
  simp only [pendingAttemptCount, activeAttemptCount]
  refine List.countP_mono_left ?_
  intro a _ hpa
  obtain ⟨h1, h2⟩ := Bool.and_eq_true_iff.mp hpa
  refine Bool.and_eq_true_iff.mpr ⟨h1, ?_⟩
  rw [beq_iff_eq.mp h2]
  rfl

/-- C3: every persisted `held_funds` row in the modelled ledger has a
positive amount and distinct source and card accounts, and `createHold`
rejects with `InvalidRequestError` any request violating either
condition. -/
theorem hold_amount_positive_accounts_distinct :
    (∀ ops : List (Nat × LedgerOp), ∀ h ∈ (runLedger ops).held_funds,
      0 < h.amount ∧ h.account_id ≠ h.card_account_id) ∧
    (∀ (now source card : Nat) (amount : Rat) (token : String) (L : Ledger),
      amount ≤ 0 ∨ source = card →
      createHold now source card amount token L = .error .invalidRequest) := by
  constructor
  · intro ops h hh
    exact (ledgerInv_run ops).1 h hh
  · intro now source card amount token L hbad
    simp only [createHold]
    rw [if_pos hbad]

/-- Witness for the C3 theorem: the example ledger's hold has a positive
amount and distinct accounts, and a `createHold` whose source equals its
card account is rejected. -/
theorem hold_amount_positive_accounts_distinct_witness :
    (0 < (50 : Rat) ∧ (1 : Nat) ≠ 2) ∧
    createHold 0 1 1 50 "t" Ledger.empty = .error .invalidRequest :=
  ⟨hold_amount_positive_accounts_distinct.1 exampleOps
      ⟨1, 1, 2, 50, "transferred", 0, 3⟩ (by decide),
   hold_amount_positive_accounts_distinct.2 0 1 1 50 "t" Ledger.empty (Or.inr rfl)⟩

/-- C5: in every reachable ledger state no external transfer id is
carried by two `transfer_log` rows, and recording an external id that is
already present on any row is rejected with `ConflictError`. -/
theorem plaid_transfer_id_unique :
    (∀ (ops : List (Nat × LedgerOp)) (ext : String),
      extIdCount (runLedger ops) ext ≤ 1) ∧
    (∀ (tid : Nat) (ext : String) (L : Ledger), extIdCount L ext ≠ 0 →
      recordTransferId tid ext L = .error .conflict) := by
  constructor
  · intro ops ext
    exact (ledgerInv_run ops).2.2.2 ext
  · intro tid ext L hn
    simp only [recordTransferId]
    rw [if_pos hn]

/-- Witness for the C5 theorem: re-recording the example ledger's already
recorded gateway id "T1" is rejected with a conflict. -/
theorem plaid_transfer_id_unique_witness :
    recordTransferId 2 "T1" exampleLedger = .error .conflict :=
  plaid_transfer_id_unique.2 2 "T1" exampleLedger (by decide)

/-- C6: in every reachable ledger state, a `transfer_log` row's
`completed_at` is set exactly when its status is terminal (posted,
failed or cancelled); a pending row always has `completed_at` NULL. -/
theorem completed_at_iff_terminal (ops : List (Nat × LedgerOp)) :
    ∀ a ∈ (runLedger ops).transfer_log,
      ((a.completed_at ≠ none) ↔ a.status ∈ terminalTransferStatuses) ∧
      (a.status = "pending" → a.completed_at = none) := by
  intro a ha
  have hiff := (ledgerInv_run ops).2.2.1 a ha
  refine ⟨hiff, ?_⟩
  intro hp
  by_contra hne
  have hmem := hiff.mp hne
  rw [hp] at hmem
  exact absurd hmem (by decide)

/-- Witness for the C6 theorem: the example ledger's posted attempt has
its completion time set, as the equivalence demands. -/
theorem completed_at_iff_terminal_witness :
    ((some 3 ≠ (none : Option Nat)) ↔ "posted" ∈ terminalTransferStatuses) ∧
    ("posted" = "pending" → (some 3 : Option Nat) = none) :=
  completed_at_iff_terminal exampleOps
    ⟨1, 1, 1, 2, 50, "posted", some "T1", 1, some 3⟩ (by decide)

/-- C8: `createHold` is idempotent in its idempotency key: after a
successful call, repeating the call with the same source, card, amount
and token returns the same held fund id and leaves the ledger unchanged,
and when the key was fresh the pair of calls has created exactly one
`held_funds` row. -/
theorem createHold_idempotent (now now2 source card : Nat) (amount : Rat)
    (token : String) (L L₁ : Ledger) (hfid : Nat)
    (h1 : createHold now source card amount token L = .ok (hfid, L₁)) :
    createHold now2 source card amount token L₁ = .ok (hfid, L₁) ∧
    (L.idem_index.find?
        (fun e => decide (e.1 = (⟨source, card, amount, token⟩ : IdemKey))) = none →
      L₁.held_funds.length = L.held_funds.length + 1) := by
  simp only [createHold] at h1 ⊢
  split at h1
  · cases h1
  · rename_i hvalid
    rw [if_neg hvalid]
    split at h1
    · rename_i e hfound
      cases h1
      constructor
      · rw [hfound]
      · intro hnone
        rw [hnone] at hfound
        cases hfound
    · rename_i hnone
      cases h1
      have hf : (L.idem_index ++
          [((⟨source, card, amount, token⟩ : IdemKey), L.nextHeldFundId)]).find?
          (fun e => decide (e.1 = (⟨source, card, amount, token⟩ : IdemKey))) =
          some ((⟨source, card, amount, token⟩ : IdemKey), L.nextHeldFundId) := by
        rw [find?_append_of_none _ hnone, List.find?_cons_of_pos _ (by simp)]
      constructor
      · rw [hf]
      · intro _
        simp

/-- Witness for the C8 theorem: repeating the first `createHold` on the
example single-hold ledger returns hold 1 unchanged, and exactly one
`held_funds` row was created. -/
theorem createHold_idempotent_witness :
    createHold 7 1 2 50 "tok" exampleHoldLedger = .ok (1, exampleHoldLedger) ∧
    exampleHoldLedger.held_funds.length = Ledger.empty.held_funds.length + 1 :=
  ⟨(createHold_idempotent 0 7 1 2 50 "tok" Ledger.empty exampleHoldLedger 1 rfl).1,
   (createHold_idempotent 0 7 1 2 50 "tok" Ledger.empty exampleHoldLedger 1 rfl).2 rfl⟩
